import Mathlib

/-!
# Verification of the nyxstack/cli command framework core

A shallow embedding of the framework's core in Lean 4, translated from the
Go sources: the typed-value converter and flag registry (`flag.go`), the
flag-inheritance resolution (`command.go: getAllFlags`), the tokenizer
(`flag.go: FlagSet.Parse`), the lifecycle orchestrator
(`execute.go: executeAction`, `runPostHooks`), the positional/variadic
argument binder (`execute.go: callAction`), and the execution entry point
(`execute.go: execute`).

Machine integers are modelled as `Nat`/`Int` with the explicit range checks
the Go standard library performs (base-10 parsing with a declared bit
width, `time.ParseDuration`'s int64 accumulation checks).  Caller-owned
flag storage (Go: a pointer held by the `Flag`) is modelled as an address
into an explicit store `Nat → GoValue`.  Fallible operations return
`Option`/`Except`.  Functions that in Go can panic return a distinguished
`panicked` outcome.
-/

namespace NyxCli

/-- A value living in caller-owned flag/argument storage.  One constructor
per kind the framework's converter supports (flag.go `setValue`): string,
bool, the signed integer widths, `time.Duration` (an int64 of nanoseconds),
the unsigned widths, and string slices.  float32/float64 conversion
(`strconv.ParseFloat`) is the one supported kind not modelled here:
floating point is outside the shallow embedding, and no claim touches it. -/
inductive GoValue where
  | str (s : String)
  | boolean (b : Bool)
  | int (v : Int)
  | duration (ns : Int)
  | uint (v : Nat)
  | strList (l : List String)
  deriving DecidableEq, Repr

/-- The static type a flag binding declares (Go: `Flag.flagType`, a
`reflect.Type`).  Integer kinds carry the bit width that
`flag.flagType.Bits()` reports (8, 16, 32 or 64).  `duration` stands for
`time.Duration`, which Go's `reflect` reports under `Kind() == Int64` but
`setValue` special-cases by comparing to `reflect.TypeOf(time.Duration(0))`.
Float widths are not modelled (see `GoValue`). -/
inductive FlagType where
  | str
  | boolean
  | int (bits : Nat)
  | duration
  | uint (bits : Nat)
  | strList
  deriving DecidableEq, Repr

/-- Caller-owned storage: addresses to values.  A flag binding holds an
address (Go: the pointer passed to `FlagSet.Add`); setting the binding
writes through it. -/
def Store : Type := Nat → GoValue

/-- Write one address of the store. -/
def Store.update (st : Store) (a : Nat) (v : GoValue) : Store :=
  fun x => if x = a then v else st x

/-! ## String-to-value conversion (Go strconv / time, as used by setValue) -/

/-- Go `strconv.ParseBool`: the twelve accepted literals, anything else is
an error. -/
def parseBool (s : String) : Option Bool :=
  match s with
  | "1" | "t" | "T" | "true" | "TRUE" | "True" => some true
  | "0" | "f" | "F" | "false" | "FALSE" | "False" => some false
  | _ => none

/-- The numeric value of a nonempty all-decimal-digit character list; `none`
if the list is empty or holds a non-digit.  (Base 10 with an explicit base
argument in Go, so underscores are not accepted.) -/
def decDigits? (cs : List Char) : Option Nat :=
  match cs with
  | [] => none
  | _ :: _ =>
    cs.foldl
      (fun acc c =>
        match acc with
        | none => none
        | some n => if c.isDigit then some (n * 10 + (c.toNat - 48)) else none)
      (some 0)

/-- Go `strconv.ParseUint(s, 10, bits)`: no sign prefix is permitted, the
digits are base 10, and a value of `bits` bits or more is a range error. -/
def parseUint (bits : Nat) (s : String) : Option Nat :=
  match decDigits? s.toList with
  | none => none
  | some v => if v < 2 ^ bits then some v else none

/-- Go `strconv.ParseInt(s, 10, bits)`: an optional leading sign, base-10
digits, and the range check against `cutoff = 2^(bits-1)` — a non-negative
result must be `< cutoff`, a negated magnitude must be `≤ cutoff`. -/
def parseInt (bits : Nat) (s : String) : Option Int :=
  match s.toList with
  | [] => none
  | c :: rest =>
    let signDigits : Bool × List Char :=
      if c = '-' then (true, rest)
      else if c = '+' then (false, rest)
      else (false, c :: rest)
    match decDigits? signDigits.2 with
    | none => none
    | some un =>
      let cutoff := 2 ^ (bits - 1)
      if ¬signDigits.1 ∧ cutoff ≤ un then none
      else if signDigits.1 ∧ cutoff < un then none
      else some (if signDigits.1 then -(un : Int) else (un : Int))

/-! ### time.ParseDuration

Modelled from the Go standard library's `time.ParseDuration`, which
`flag.go: setValue` calls for `time.Duration` flags: an optional sign, the
special case that exactly `"0"` needs no unit, then one or more
`digits[.digits]unit` groups accumulated into int64 nanoseconds with
overflow checks.  The one simplification: Go computes the fractional
contribution through float64 (`int64(float64(f) * (float64(unit)/scale))`);
here it is the integer quotient `f * unit / scale`.  No claim involves
fractional duration tokens, and the integer paths are exact. -/

/-- Go `time.leadingInt`: consume leading decimal digits into an int64,
failing on overflow past `2^63 - 1`. -/
def leadingIntGo : List Char → Nat → Option (Nat × List Char)
  | [], x => some (x, [])
  | c :: cs, x =>
    if c.isDigit then
      if x > (2 ^ 63 - 1) / 10 then none
      else
        let x2 := x * 10 + (c.toNat - 48)
        if x2 > 2 ^ 63 - 1 then none
        else leadingIntGo cs x2
    else some (x, c :: cs)

/-- Go `time.leadingFraction`: consume digits after the decimal point,
accumulating value and scale, silently stopping accumulation (but still
consuming digits) once the value would overflow int64. -/
def leadingFractionGo : List Char → Nat → Nat → Bool → Nat × Nat × List Char
  | [], f, scale, _ => (f, scale, [])
  | c :: cs, f, scale, overfl =>
    if c.isDigit then
      if overfl then leadingFractionGo cs f scale true
      else if f > (2 ^ 63 - 1) / 10 then leadingFractionGo cs f scale true
      else leadingFractionGo cs (f * 10 + (c.toNat - 48)) (scale * 10) false
    else (f, scale, c :: cs)

/-- Go `time.unitMap`: nanoseconds per unit name. -/
def unitValue? (u : List Char) : Option Nat :=
  if u = ['n', 's'] then some 1
  else if u = ['u', 's'] then some 1000
  else if u = ['µ', 's'] then some 1000
  else if u = ['μ', 's'] then some 1000
  else if u = ['m', 's'] then some 1000000
  else if u = ['s'] then some 1000000000
  else if u = ['m'] then some 60000000000
  else if u = ['h'] then some 3600000000000
  else none

/-- The unit-name scan of `time.ParseDuration`: the maximal prefix of
characters that are neither digits nor `'.'`, and the rest. -/
def takeUnit (cs : List Char) : List Char × List Char :=
  cs.span (fun c => ¬(c = '.' ∨ c.isDigit))

/-- The main loop of `time.ParseDuration`, accumulating nanoseconds.  Each
iteration consumes at least one character (a digit-or-dot group plus a
nonempty unit), so fuel `length + 1` never runs out; exhausted fuel returns
the error case. -/
def durLoop : Nat → Nat → List Char → Option Nat
  | _, d, [] => some d
  | 0, _, _ :: _ => none
  | fuel + 1, d, c0 :: cs0 =>
    if ¬(c0 = '.' ∨ c0.isDigit) then none
    else
      let s := c0 :: cs0
      match leadingIntGo s 0 with
      | none => none
      | some (v, s1) =>
        let pre : Bool := decide (s.length ≠ s1.length)
        let fracState : Nat × Nat × List Char × Bool :=
          match s1 with
          | '.' :: s1' =>
            let r := leadingFractionGo s1' 0 1 false
            (r.1, r.2.1, r.2.2, decide (s1'.length ≠ r.2.2.length))
          | _ => (0, 1, s1, false)
        let f := fracState.1
        let scale := fracState.2.1
        let s2 := fracState.2.2.1
        let post := fracState.2.2.2
        if pre = false ∧ post = false then none
        else
          let us := takeUnit s2
          if us.1 = [] then none
          else
            match unitValue? us.1 with
            | none => none
            | some unit =>
              if v > (2 ^ 63 - 1) / unit then none
              else
                let v2 := v * unit
                let v3 := if f > 0 then v2 + f * unit / scale else v2
                if v3 > 2 ^ 63 - 1 then none
                else
                  let d2 := d + v3
                  if d2 > 2 ^ 63 - 1 then none
                  else durLoop fuel d2 us.2

/-- Go `time.ParseDuration`, producing nanoseconds: optional sign, the
`"0"` special case, otherwise the group loop; `""` after the sign is an
error. -/
def parseDuration (str : String) : Option Int :=
  let cs := str.toList
  let signBody : Bool × List Char :=
    match cs with
    | c :: rest =>
      if c = '-' then (true, rest)
      else if c = '+' then (false, rest)
      else (false, cs)
    | [] => (false, cs)
  let neg := signBody.1
  let s := signBody.2
  if s = ['0'] then some 0
  else if s = [] then none
  else
    match durLoop (s.length + 1) 0 s with
    | none => none
    | some d => some (if neg then -(d : Int) else (d : Int))

/-! ## Flag bindings and the flag registry (flag.go) -/

/-- A flag binding (Go `Flag`): all names (the head is the primary long
name, an optional second entry the short alias), the declared type, the
default, the usage text, the address of the caller-owned storage it writes
through (Go: `value reflect.Value`, a pointer), the `required`/`hidden`
markers, and the `set` marker that parsing flips. -/
structure FlagM where
  names : List String
  flagType : FlagType
  defValue : Option GoValue := none
  usage : String := ""
  addr : Nat
  required : Bool := false
  hidden : Bool := false
  set : Bool := false
  deriving DecidableEq, Repr

/-- Go `Flag.PrimaryName`: the first name, or `""` when there is none. -/
def FlagM.primaryName (f : FlagM) : String :=
  f.names.headD ""

/-- Go `Flag.HasName`: whether any of the binding's names equals `n`. -/
def FlagM.hasName (f : FlagM) (n : String) : Bool :=
  f.names.contains n

/-- Go `FlagSet.Add`: write the default (when provided) through to the
caller-owned storage, build the name list (primary plus the shorthand if
nonempty), and append the new binding to the registry. -/
def addFlag (fs : List FlagM) (st : Store) (addr : Nat) (name shorthand : String)
    (t : FlagType) (defaultValue : Option GoValue) (usage : String) :
    List FlagM × Store :=
  let st2 :=
    match defaultValue with
    | some v => st.update addr v
    | none => st
  let names := if shorthand = "" then [name] else [name, shorthand]
  (fs ++ [{ names := names, flagType := t, defValue := defaultValue,
            usage := usage, addr := addr }], st2)

/-- Go `FlagSet.GetFlag`: the first binding in declaration order that has
`n` among its names. -/
def getFlag (fs : List FlagM) (n : String) : Option FlagM :=
  fs.find? (fun f => f.hasName n)

/-- Flip the `set` marker of the binding `GetFlag` resolves for `n` (the
first one carrying the name) — models `flag.set = true` on the pointer
`Parse` obtained. -/
def markSet (n : String) : List FlagM → List FlagM
  | [] => []
  | f :: fs =>
    if f.hasName n then { f with set := true } :: fs
    else f :: markSet n fs

/-- Go `FlagSet.setValue`: convert the token by the binding's declared type
and write the result through to the caller-owned storage; string-list
bindings append one element to the stored list.  A conversion failure
returns the error and leaves the store untouched. -/
def setValue (st : Store) (f : FlagM) (value : String) : Except String Store :=
  match f.flagType with
  | .str => .ok (st.update f.addr (.str value))
  | .boolean =>
    match parseBool value with
    | some b => .ok (st.update f.addr (.boolean b))
    | none => .error "invalid boolean value"
  | .int bits =>
    match parseInt bits value with
    | some v => .ok (st.update f.addr (.int v))
    | none => .error "invalid integer value"
  | .duration =>
    match parseDuration value with
    | some d => .ok (st.update f.addr (.duration d))
    | none => .error "invalid duration value"
  | .uint bits =>
    match parseUint bits value with
    | some v => .ok (st.update f.addr (.uint v))
    | none => .error "invalid unsigned value"
  | .strList =>
    match st f.addr with
    | .strList l => .ok (st.update f.addr (.strList (l ++ [value])))
    | _ => .error "storage type mismatch"

/-- The second step of the dash stripping in `FlagSet.Parse`: Go checks
`strings.HasPrefix(arg, "--")` after `strings.HasPrefix(arg, "-")`, so once
one dash is removed a second leading dash (if any) is removed too. -/
def stripSecondDash : List Char → List Char
  | '-' :: t2 => t2
  | t1 => t1

/-- The split of a dash-stripped flag token at its first `=` (Go:
`strings.Index(name, "=")`): the name part, and the value part when an `=`
is present. -/
def splitEq (name : List Char) : List Char × Option (List Char) :=
  match name.span (fun c => c != '=') with
  | (pre, []) => (pre, none)
  | (pre, _ :: post) => (pre, some post)

/-- Go `FlagSet.Parse`: one left-to-right pass.  A token not starting with
`-` joins the remaining (positional-candidate) list.  A flag token is
stripped of `--` or `-`, split at the first `=`, and resolved by
`GetFlag` against all names of each binding.  Booleans accept a bare form
meaning `true`; every other type requires `=value`.  Each successful
conversion writes to caller-owned storage immediately and flips the
binding's `set` marker; the first failure returns the error with all
earlier writes kept. -/
def parseTokens (fs : List FlagM) (st : Store) (acc : List String) :
    List String → List FlagM × Store × Except String (List String)
  | [] => (fs, st, .ok acc)
  | arg :: rest =>
    match arg.toList with
    | '-' :: t1 =>
      let nameChars : List Char := stripSecondDash t1
      let sp := splitEq nameChars
      let flagName : String := ⟨sp.1⟩
      match getFlag fs flagName with
      | none => (fs, st, .error ("unknown flag: " ++ flagName))
      | some f =>
        if f.flagType = .boolean then
          match sp.2 with
          | some valChars =>
            match setValue st f ⟨valChars⟩ with
            | .ok st2 => parseTokens (markSet flagName fs) st2 acc rest
            | .error e => (fs, st, .error ("invalid value for flag " ++ flagName ++ ": " ++ e))
          | none =>
            parseTokens (markSet flagName fs) (st.update f.addr (.boolean true)) acc rest
        else
          match sp.2 with
          | none => (fs, st, .error ("flag " ++ flagName ++ " requires a value"))
          | some valChars =>
            match setValue st f ⟨valChars⟩ with
            | .ok st2 => parseTokens (markSet flagName fs) st2 acc rest
            | .error e => (fs, st, .error ("invalid value for flag " ++ flagName ++ ": " ++ e))
    | _ => parseTokens fs st (acc ++ [arg]) rest

/-! ## Flag-inheritance resolution (command.go: getAllFlags) -/

/-- The dedup loop of `getAllFlags`: keep each binding the first time its
primary name is seen, drop later bindings of an already-seen primary name.
`seen` is the set of names recorded so far (Go: the `seen` map). -/
def dedupByPrimary (seen : List String) : List FlagM → List FlagM
  | [] => []
  | f :: fs =>
    if f.primaryName ∈ seen then dedupByPrimary seen fs
    else f :: dedupByPrimary (f.primaryName :: seen) fs

/-- Go `Command.getAllFlags`: the code collects the ancestor chain
root→node, then iterates it node→root, appending each flag whose primary
name was not seen before.  With `ancestors` the chain's per-node own-flag
lists in root→node order, this is exactly deduplication of the node→root
concatenation. -/
def getAllFlags (ancestors : List (List FlagM)) : List FlagM :=
  dedupByPrimary [] ancestors.reverse.flatten

/-! ## Lifecycle orchestrator (execute.go: executeAction, runPostHooks) -/

/-- One observable step of a lifecycle run: which hook or handler was
invoked, with the index of the ancestor (0 = root) for the persistent
hooks. -/
inductive Event where
  | ppre (i : Nat)
  | pre
  | handler
  | post
  | ppost (i : Nat)
  deriving DecidableEq, Repr

/-- The lifecycle slots of one command, exactly the fields
`executeAction`/`runPostHooks` consult: each hook is absent (`none`) or
present with the result its body returns (`some none` success,
`some (some e)` the error `e`); the action likewise.  Hook and handler
bodies are opaque to the orchestrator, so they are modelled by the value
they return. -/
structure HookSlots where
  persistentPreRun : Option (Option Nat) := none
  preRun : Option (Option Nat) := none
  action : Option (Option Nat) := none
  postRun : Option (Option Nat) := none
  persistentPostRun : Option (Option Nat) := none
  deriving DecidableEq, Repr

/-- The root→leaf PersistentPreRun walk of `executeAction`: invoke each
present hook in order; the first error stops the walk.  Returns the trace
of invocations and, on failure, the failing ancestor's index with its
error. -/
def forwardPPre (i : Nat) : List HookSlots → List Event × Option (Nat × Nat)
  | [] => ([], none)
  | c :: rest =>
    match c.persistentPreRun with
    | none => forwardPPre (i + 1) rest
    | some none =>
      let r := forwardPPre (i + 1) rest
      (Event.ppre i :: r.1, r.2)
    | some (some e) => ([Event.ppre i], some (i, e))

/-- The PersistentPostRun invocations of the chain listed in root→leaf
(ascending index) order; `runPostHooksM` reverses this into the leaf→root
order the code walks via parent pointers. -/
def ppostAsc (i : Nat) : List HookSlots → List Event
  | [] => []
  | c :: rest =>
    (match c.persistentPostRun with
     | some _ => [Event.ppost i]
     | none => []) ++ ppostAsc (i + 1) rest

/-- Go `runPostHooks`: the leaf's PostRun when present (its error is
ignored), then every present PersistentPostRun leaf→root (errors likewise
ignored). -/
def runPostHooksM (anc : List HookSlots) : List Event :=
  (match anc.getLast? with
   | some leaf =>
     match leaf.postRun with
     | some _ => [Event.post]
     | none => []
   | none => []) ++ (ppostAsc 0 anc).reverse

/-- Go `executeAction` over the ancestor chain in root→leaf order (the
chain the code rebuilds from parent pointers, the executing command last):
PersistentPreRun root→leaf aborting the forward phase on the first error,
then the leaf's PreRun, then the action call; `runPostHooks` runs on every
exit path, and the returned value is the forward phase's error, else the
action's own result. -/
def executeActionM (anc : List HookSlots) : List Event × Option Nat :=
  let f := forwardPPre 0 anc
  match f.2 with
  | some ke => (f.1 ++ runPostHooksM anc, some ke.2)
  | none =>
    match anc.getLast? with
    | none => (f.1 ++ runPostHooksM anc, none)
    | some leaf =>
      match leaf.preRun with
      | some (some e) => (f.1 ++ [Event.pre] ++ runPostHooksM anc, some e)
      | some none =>
        match leaf.action with
        | some r => (f.1 ++ [Event.pre, Event.handler] ++ runPostHooksM anc, r)
        | none => (f.1 ++ [Event.pre] ++ runPostHooksM anc, none)
      | none =>
        match leaf.action with
        | some r => (f.1 ++ [Event.handler] ++ runPostHooksM anc, r)
        | none => (f.1 ++ runPostHooksM anc, none)

/-- The first error of the forward phase in its fixed order — the first
failing PersistentPreRun, else a failing PreRun, else the action's own
result — the value §4.6 of the spec says the caller receives. -/
def firstForwardError (anc : List HookSlots) : Option Nat :=
  match (forwardPPre 0 anc).2 with
  | some ke => some ke.2
  | none =>
    match anc.getLast? with
    | none => none
    | some leaf =>
      match leaf.preRun with
      | some (some e) => some e
      | _ =>
        match leaf.action with
        | some r => r
        | none => none

/-! ## Positional/variadic argument binder (execute.go: callAction) -/

/-- A positional argument declaration (Go `Argument`, built by
`Command.Arg`). -/
structure ArgDecl where
  name : String
  description : String := ""
  required : Bool
  deriving DecidableEq, Repr

/-- The zero value of a target type (Go `reflect.Zero` /
`reflect.New(t).Elem()`). -/
def zeroValue : FlagType → GoValue
  | .str => .str ""
  | .boolean => .boolean false
  | .int _ => .int 0
  | .duration => .duration 0
  | .uint _ => .uint 0
  | .strList => .strList []

/-- Go `convertArgument`: build a temporary zero-valued variable of the
target type, run the flag conversion logic (`setValue`) on it, and return
the converted value. -/
def convertArgument (arg : String) (t : FlagType) : Except String GoValue :=
  let tempFlag : FlagM := { names := ["temp"], flagType := t, addr := 0 }
  let tempStore : Store := fun _ => zeroValue t
  match setValue tempStore tempFlag arg with
  | .ok st2 => .ok (st2 0)
  | .error e => .error e

/-- A user action's parameter list as the binder sees it through
reflection, after the leading `(ctx, cmd)` pair: the fixed parameter types
(`numFixed` many for a variadic Go function, `numParams` for a plain one)
and, when the function is variadic, the element type of the trailing
slice. -/
structure ActionSig where
  fixed : List FlagType
  variadic : Option FlagType
  deriving DecidableEq, Repr

/-- The binder's outcome: the bound fixed arguments plus (for a variadic
action) the collected variadic values; a returned `ArgumentError` (name and
message); or a Go panic — `reflect.MakeSlice` with a negative length. -/
inductive BindResult where
  | ok (fixed : List GoValue) (variadic : Option (List GoValue))
  | err (argName : String) (msg : String)
  | panicked (msg : String)
  deriving DecidableEq, Repr

/-- The fixed-parameter loop of `callAction` (identical in the variadic
and non-variadic paths): for parameter position `i`, convert token `i` if
present; otherwise fail if the declaration at `i` is required, else supply
the zero value of the parameter type. -/
def bindFixed (decls : List ArgDecl) (args : List String) (i : Nat) :
    List FlagType → Except (String × String) (List GoValue)
  | [] => .ok []
  | t :: ts =>
    match args[i]? with
    | none =>
      match decls[i]? with
      | some d =>
        if d.required then .error (d.name, "required argument missing")
        else
          match bindFixed decls args (i + 1) ts with
          | .error e => .error e
          | .ok vs => .ok (zeroValue t :: vs)
      | none =>
        match bindFixed decls args (i + 1) ts with
        | .error e => .error e
        | .ok vs => .ok (zeroValue t :: vs)
    | some a =>
      match convertArgument a t with
      | .error e =>
        .error ((match decls[i]? with | some d => d.name | none => ""), e)
      | .ok v =>
        match bindFixed decls args (i + 1) ts with
        | .error e => .error e
        | .ok vs => .ok (v :: vs)

/-- The variadic collection loop of `callAction`: convert every remaining
token to the element type, in order, stopping at the first failure. -/
def convertAll (t : FlagType) : List String → Except String (List GoValue)
  | [] => .ok []
  | a :: rest =>
    match convertArgument a t with
    | .error e => .error e
    | .ok v =>
      match convertAll t rest with
      | .error e => .error e
      | .ok vs => .ok (v :: vs)

/-- Go `callAction`'s argument binding.  Variadic path: bind the fixed
positions, then `variadicCount := len(args) - numFixed` and
`reflect.MakeSlice(sliceType, variadicCount, variadicCount)` — which
panics when the count is negative, i.e. when fewer tokens than fixed
parameters were supplied — then convert each remaining token into the
slice.  Non-variadic path: bind the `numParams` positions (`execute`
already rejected excess tokens). -/
def callActionM (sig : ActionSig) (decls : List ArgDecl) (args : List String) :
    BindResult :=
  match sig.variadic with
  | some elemType =>
    match bindFixed decls args 0 sig.fixed with
    | .error ne => .err ne.1 ne.2
    | .ok fixedVals =>
      if args.length < sig.fixed.length then
        .panicked "reflect.MakeSlice: negative len"
      else
        match convertAll elemType (args.drop sig.fixed.length) with
        | .error e => .err "" e
        | .ok vals => .ok fixedVals (some vals)
  | none =>
    match bindFixed decls args 0 sig.fixed with
    | .error ne => .err ne.1 ne.2
    | .ok fixedVals => .ok fixedVals none

/-! ## The execution entry point (execute.go: execute) -/

/-- A command node (Go `Command`), with the fields `execute` consults.
Hook bodies and the action body are opaque to the engine and are modelled
by the value they return (`body` is what the action body returns once the
binder has invoked it); `sig` is `none` exactly when `c.action == nil`.
Subcommands are the child map as an association list keyed by child name
(Go: `subcommands map[string]*Command`). -/
structure CommandM where
  name : String
  flags : List FlagM := []
  argDecls : List ArgDecl := []
  subList : List (String × CommandM) := []
  persistentPreRun : Option (Option Nat) := none
  preRun : Option (Option Nat) := none
  postRun : Option (Option Nat) := none
  persistentPostRun : Option (Option Nat) := none
  sig : Option ActionSig := none
  body : Option Nat := none
  helpEnabled : Bool := true
  helpFlag : String := "help"
  helpShort : String := "h"

/-- The lifecycle slots of a command, as `executeAction` walks them. -/
def CommandM.toHooks (c : CommandM) : HookSlots :=
  { persistentPreRun := c.persistentPreRun, preRun := c.preRun,
    action := c.sig.map (fun _ => c.body),
    postRun := c.postRun, persistentPostRun := c.persistentPostRun }

/-- The errors `execute` returns (§7 of the spec): unresolved subcommand,
flag errors (unknown/malformed/conversion/required), argument errors, and
an error code returned by a hook or the action body. -/
inductive ExecErr where
  | commandNotFound (tok : String)
  | flagErr (msg : String)
  | argErr (name : String) (msg : String)
  | code (e : Nat)
  deriving DecidableEq, Repr

/-- The outcome of `execute`: a normal return (`ret none` is a nil error)
or an escaping Go panic. -/
inductive ExecOut where
  | ret (e : Option ExecErr)
  | panicked (msg : String)
  deriving DecidableEq, Repr

/-- The subcommand search of `execute`: walk the tokens left to right,
deferring `-`-prefixed tokens; the first other token is the subcommand
boundary if it names a child, a command-not-found if the node has children,
and otherwise ends the search. -/
inductive RouteResult where
  | found (before : List String) (sub : CommandM) (after : List String)
  | notFound (tok : String)
  | noSub

/-- Child lookup in the subcommand map. -/
def lookupSub (subs : List (String × CommandM)) (n : String) : Option CommandM :=
  (subs.find? (fun p => p.1 = n)).map (fun p => p.2)

/-- Go `strings.HasPrefix(arg, "-")` on a token (stated on the character
list, which the kernel can evaluate). -/
def dashPrefix (a : String) : Bool :=
  match a.toList with
  | '-' :: _ => true
  | _ => false

/-- The routing loop of `execute` (lines 51-78): `before` accumulates the
tokens already passed over. -/
def routeArgs (subs : List (String × CommandM)) (before : List String)
    (l : List String) : RouteResult :=
  match l with
  | [] => .noSub
  | a :: rest =>
    if dashPrefix a then routeArgs subs (before ++ [a]) rest
    else
      match lookupSub subs a with
      | some sub => .found before sub rest
      | none => if subs.isEmpty then .noSub else .notFound a
termination_by structural l

/-- Mark as set every binding whose storage address is in `marks`.  In Go
the `set` markers live inside the `Flag` objects shared by pointer across
the tree and across recursion levels; each binding is backed by its own
caller variable, so a storage address identifies a binding and the markers
can be carried between levels as a list of addresses. -/
def applyMarks (marks : List Nat) (fs : List FlagM) : List FlagM :=
  fs.map (fun f => if f.addr ∈ marks then { f with set := true } else f)

/-- The addresses of the bindings a parse left marked as set. -/
def marksOf (fs : List FlagM) : List Nat :=
  (fs.filter (fun f => f.set)).map (fun f => f.addr)

/-- Go `execute`, fuelled: the help-token pre-emption first (lines 29-48),
then the subcommand search, the flags-before-subcommand parse and the
recursion into the child, or — at the resolved node — the one-pass parse
of the effective flag set, required-flag validation, the too-many-arguments
check, and the lifecycle around the action call.  Returns the accumulated
set markers, the store, the lifecycle trace, and the outcome.  Each
recursion level consumes at least the subcommand token, so fuel
`args.length + 1` can never run out; exhausted fuel reports a panic (it is
unreachable from `executeTop`). -/
def executeM (fuel : Nat) (anc : List CommandM) (c : CommandM) (marks : List Nat)
    (st : Store) (args : List String) :
    List Nat × Store × List Event × ExecOut :=
  match fuel with
  | 0 => (marks, st, [], .panicked "out of fuel")
  | fuel + 1 =>
    if c.helpEnabled ∧ ∃ a ∈ args, a = "--" ++ c.helpFlag ∨ a = "-" ++ c.helpShort then
      (marks, st, [], .ret none)
    else
      match routeArgs c.subList [] args with
      | .notFound tok => (marks, st, [], .ret (some (.commandNotFound tok)))
      | .found before sub after =>
        if before.isEmpty then
          executeM fuel (anc ++ [c]) sub marks st after
        else
          let allFlags := applyMarks marks (getAllFlags ((anc ++ [c]).map CommandM.flags))
          let p := parseTokens allFlags st [] before
          let marks2 := marksOf p.1 ++ marks
          match p.2.2 with
          | .error m => (marks2, p.2.1, [], .ret (some (.flagErr m)))
          | .ok _ => executeM fuel (anc ++ [c]) sub marks2 p.2.1 after
      | .noSub =>
        let allFlags := applyMarks marks (getAllFlags ((anc ++ [c]).map CommandM.flags))
        let p := parseTokens allFlags st [] args
        let fs2 := p.1
        let st2 := p.2.1
        let marks2 := marksOf fs2 ++ marks
        match p.2.2 with
        | .error m => (marks2, st2, [], .ret (some (.flagErr m)))
        | .ok remaining =>
          match fs2.find? (fun f => f.required && !f.set) with
          | some f =>
            (marks2, st2, [], .ret (some (.flagErr (f.primaryName ++ ": required flag not set"))))
          | none =>
            let isVariadic :=
              match c.sig with
              | some s => s.variadic.isSome
              | none => false
            if isVariadic = false ∧ c.argDecls.length < remaining.length then
              (marks2, st2, [], .ret (some (.argErr "" "too many arguments")))
            else
              let chain := (anc ++ [c]).map CommandM.toHooks
              let f := forwardPPre 0 chain
              match f.2 with
              | some ke => (marks2, st2, f.1 ++ runPostHooksM chain, .ret (some (.code ke.2)))
              | none =>
                match c.preRun with
                | some (some e) =>
                  (marks2, st2, f.1 ++ [Event.pre] ++ runPostHooksM chain, .ret (some (.code e)))
                | some none =>
                  match c.sig with
                  | none => (marks2, st2, f.1 ++ [Event.pre] ++ runPostHooksM chain, .ret none)
                  | some s =>
                    match callActionM s c.argDecls remaining with
                    | .panicked m => (marks2, st2, f.1 ++ [Event.pre], .panicked m)
                    | .err n m =>
                      (marks2, st2, f.1 ++ [Event.pre] ++ runPostHooksM chain,
                        .ret (some (.argErr n m)))
                    | .ok _ _ =>
                      (marks2, st2, f.1 ++ [Event.pre, Event.handler] ++ runPostHooksM chain,
                        .ret ((c.body).map ExecErr.code))
                | none =>
                  match c.sig with
                  | none => (marks2, st2, f.1 ++ runPostHooksM chain, .ret none)
                  | some s =>
                    match callActionM s c.argDecls remaining with
                    | .panicked m => (marks2, st2, f.1, .panicked m)
                    | .err n m =>
                      (marks2, st2, f.1 ++ runPostHooksM chain, .ret (some (.argErr n m)))
                    | .ok _ _ =>
                      (marks2, st2, f.1 ++ [Event.handler] ++ runPostHooksM chain,
                        .ret ((c.body).map ExecErr.code))
termination_by structural fuel

/-- Go `ExecuteWithArgs` (modulo the background context, which the engine
never inspects): run the root command on a token vector with enough fuel. -/
def executeTop (c : CommandM) (st : Store) (args : List String) :
    List Nat × Store × List Event × ExecOut :=
  executeM (args.length + 1) [] c [] st args

/-- Decidable equality for `Except`, so that concrete parse outcomes can be
checked by evaluation. -/
def exceptDecEq {ε α : Type} [DecidableEq ε] [DecidableEq α] :
    DecidableEq (Except ε α) := fun x y =>
  match x, y with
  | .ok a, .ok b =>
    match decEq a b with
    | isTrue h => isTrue (h ▸ rfl)
    | isFalse h => isFalse (fun hc => h (Except.ok.inj hc))
  | .error a, .error b =>
    match decEq a b with
    | isTrue h => isTrue (h ▸ rfl)
    | isFalse h => isFalse (fun hc => h (Except.error.inj hc))
  | .ok _, .error _ => isFalse (fun hc => Except.noConfusion hc)
  | .error _, .ok _ => isFalse (fun hc => Except.noConfusion hc)

instance {ε α : Type} [DecidableEq ε] [DecidableEq α] : DecidableEq (Except ε α) :=
  exceptDecEq

/-- A store holding the empty string at every address, used by the
concrete instances. -/
def emptyStore : Store := fun _ => GoValue.str ""

/-- A one-node command with default help settings and one required string
flag, used by the concrete instances: per the constructor `Cmd`, help is
enabled with flag names "help" and "h". -/
def helpDemoCmd : CommandM :=
  { name := "app", subList := [],
    flags := [{ names := ["k"], flagType := .str, addr := 0, required := true }] }

/-! ## Theorems for the claims -/

/-- C6: for a boolean flag binding with long name "verbose" and short alias
"v", each of the four token forms -v, -v=true, --verbose, --verbose=true
stores the same value true into the caller-owned storage and marks the
binding as explicitly set, with the parse succeeding. -/
theorem bool_flag_four_forms :
    ((parseTokens [{ names := ["verbose", "v"], flagType := .boolean, addr := 0 }]
        (fun _ => GoValue.boolean false) [] ["-v"]).2.1 0 = GoValue.boolean true ∧
      (parseTokens [{ names := ["verbose", "v"], flagType := .boolean, addr := 0 }]
        (fun _ => GoValue.boolean false) [] ["-v"]).1.map FlagM.set = [true] ∧
      (parseTokens [{ names := ["verbose", "v"], flagType := .boolean, addr := 0 }]
        (fun _ => GoValue.boolean false) [] ["-v"]).2.2 = .ok []) ∧
    ((parseTokens [{ names := ["verbose", "v"], flagType := .boolean, addr := 0 }]
        (fun _ => GoValue.boolean false) [] ["-v=true"]).2.1 0 = GoValue.boolean true ∧
      (parseTokens [{ names := ["verbose", "v"], flagType := .boolean, addr := 0 }]
        (fun _ => GoValue.boolean false) [] ["-v=true"]).1.map FlagM.set = [true] ∧
      (parseTokens [{ names := ["verbose", "v"], flagType := .boolean, addr := 0 }]
        (fun _ => GoValue.boolean false) [] ["-v=true"]).2.2 = .ok []) ∧
    ((parseTokens [{ names := ["verbose", "v"], flagType := .boolean, addr := 0 }]
        (fun _ => GoValue.boolean false) [] ["--verbose"]).2.1 0 = GoValue.boolean true ∧
      (parseTokens [{ names := ["verbose", "v"], flagType := .boolean, addr := 0 }]
        (fun _ => GoValue.boolean false) [] ["--verbose"]).1.map FlagM.set = [true] ∧
      (parseTokens [{ names := ["verbose", "v"], flagType := .boolean, addr := 0 }]
        (fun _ => GoValue.boolean false) [] ["--verbose"]).2.2 = .ok []) ∧
    ((parseTokens [{ names := ["verbose", "v"], flagType := .boolean, addr := 0 }]
        (fun _ => GoValue.boolean false) [] ["--verbose=true"]).2.1 0 = GoValue.boolean true ∧
      (parseTokens [{ names := ["verbose", "v"], flagType := .boolean, addr := 0 }]
        (fun _ => GoValue.boolean false) [] ["--verbose=true"]).1.map FlagM.set = [true] ∧
      (parseTokens [{ names := ["verbose", "v"], flagType := .boolean, addr := 0 }]
        (fun _ => GoValue.boolean false) [] ["--verbose=true"]).2.2 = .ok []) := by
  decide

/-- C9: flag parsing is not atomic on error — on a vector whose second
token is an unknown flag, the write the first (valid) token made to
caller-owned storage persists after the error is returned, and the binding
stays marked set: each token's value is committed immediately, with no
rollback. -/
theorem parse_error_keeps_earlier_writes :
    (parseTokens [{ names := ["a"], flagType := .str, addr := 0 }]
      (fun _ => GoValue.str "") [] ["--a=hello", "--bogus=1"]).2.1 0 = GoValue.str "hello" ∧
    (parseTokens [{ names := ["a"], flagType := .str, addr := 0 }]
      (fun _ => GoValue.str "") [] ["--a=hello", "--bogus=1"]).2.2
      = .error "unknown flag: bogus" ∧
    (parseTokens [{ names := ["a"], flagType := .str, addr := 0 }]
      (fun _ => GoValue.str "") [] ["--a=hello", "--bogus=1"]).1.map FlagM.set = [true] := by
  decide

/-- C4: the binder does not tolerate a candidate list shorter than the
fixed parameter count even when the missing positions are optional — with
two optional fixed string parameters, a trailing variadic string parameter
and the single token "a", the fixed loop zero-fills position 1 and then
variadicCount = 1 - 2 is negative, so reflect.MakeSlice panics.  The
positive parts of the claim do hold: with tokens a b c d the fixed
parameters bind to "a","b" and the variadic collects ["c","d"] in order,
and zero remaining tokens yield an empty collection without error. -/
theorem variadic_negative_makeslice_panics :
    callActionM { fixed := [.str, .str], variadic := some .str }
      [{ name := "a", required := false }, { name := "b", required := false }]
      ["a"] = .panicked "reflect.MakeSlice: negative len" ∧
    callActionM { fixed := [.str, .str], variadic := some .str } [] ["a", "b", "c", "d"]
      = .ok [.str "a", .str "b"] (some [.str "c", .str "d"]) ∧
    callActionM { fixed := [.str], variadic := some .str } [] ["a"]
      = .ok [.str "a"] (some []) := by
  decide

/-- C3 counterexample: adding a second binding with primary name "x" does
not replace the earlier one — registry lookup returns the first binding
(addr 0, usage "first"), not the later (addr 1, usage "second"); the
effective flag set keeps only the first; and parsing --x=v writes the
caller storage of the first binding, leaving the second binding's storage
at its default. -/
theorem duplicate_primary_add_cex :
    getFlag (addFlag (addFlag [] (fun _ => GoValue.str "") 0 "x" "" .str
          (some (.str "d1")) "first").1
        (addFlag [] (fun _ => GoValue.str "") 0 "x" "" .str (some (.str "d1")) "first").2
        1 "x" "" .str (some (.str "d2")) "second").1 "x"
      ≠ some { names := ["x"], flagType := .str, defValue := some (.str "d2"),
               usage := "second", addr := 1 } ∧
    getFlag (addFlag (addFlag [] (fun _ => GoValue.str "") 0 "x" "" .str
          (some (.str "d1")) "first").1
        (addFlag [] (fun _ => GoValue.str "") 0 "x" "" .str (some (.str "d1")) "first").2
        1 "x" "" .str (some (.str "d2")) "second").1 "x"
      = some { names := ["x"], flagType := .str, defValue := some (.str "d1"),
               usage := "first", addr := 0 } ∧
    getAllFlags [(addFlag (addFlag [] (fun _ => GoValue.str "") 0 "x" "" .str
          (some (.str "d1")) "first").1
        (addFlag [] (fun _ => GoValue.str "") 0 "x" "" .str (some (.str "d1")) "first").2
        1 "x" "" .str (some (.str "d2")) "second").1]
      = [{ names := ["x"], flagType := .str, defValue := some (.str "d1"),
           usage := "first", addr := 0 }] ∧
    (parseTokens (addFlag (addFlag [] (fun _ => GoValue.str "") 0 "x" "" .str
          (some (.str "d1")) "first").1
        (addFlag [] (fun _ => GoValue.str "") 0 "x" "" .str (some (.str "d1")) "first").2
        1 "x" "" .str (some (.str "d2")) "second").1
      (addFlag (addFlag [] (fun _ => GoValue.str "") 0 "x" "" .str
          (some (.str "d1")) "first").1
        (addFlag [] (fun _ => GoValue.str "") 0 "x" "" .str (some (.str "d1")) "first").2
        1 "x" "" .str (some (.str "d2")) "second").2
      [] ["--x=v"]).2.1 0 = GoValue.str "v" ∧
    (parseTokens (addFlag (addFlag [] (fun _ => GoValue.str "") 0 "x" "" .str
          (some (.str "d1")) "first").1
        (addFlag [] (fun _ => GoValue.str "") 0 "x" "" .str (some (.str "d1")) "first").2
        1 "x" "" .str (some (.str "d2")) "second").1
      (addFlag (addFlag [] (fun _ => GoValue.str "") 0 "x" "" .str
          (some (.str "d1")) "first").1
        (addFlag [] (fun _ => GoValue.str "") 0 "x" "" .str (some (.str "d1")) "first").2
        1 "x" "" .str (some (.str "d2")) "second").2
      [] ["--x=v"]).2.1 1 = GoValue.str "d2" := by
  decide

/-- C5 counterexample: the token "0" consists only of digits and has no
unit suffix, yet time.ParseDuration special-cases it and the conversion
for a duration flag binding succeeds (storing zero nanoseconds) instead of
failing as the claim states. -/
theorem duration_token_zero_cex :
    "0".toList.all Char.isDigit = true ∧
    parseDuration "0" = some 0 ∧
    (setValue (fun _ => GoValue.duration 7)
        { names := ["t"], flagType := .duration, addr := 0 } "0").isOk = true ∧
    (parseTokens [{ names := ["t"], flagType := .duration, addr := 0 }]
      (fun _ => GoValue.duration 7) [] ["--t=0"]).2.2 = .ok [] ∧
    (parseTokens [{ names := ["t"], flagType := .duration, addr := 0 }]
      (fun _ => GoValue.duration 7) [] ["--t=0"]).2.1 0 = GoValue.duration 0 := by
  decide

/-- A decimal digit is neither a sign character nor a dash. -/
theorem isDigit_ne_sign (c : Char) (h : c.isDigit = true) : c ≠ '-' ∧ c ≠ '+' := by
  constructor <;> intro he <;> subst he <;> simp [Char.isDigit] at h

/-- On an all-digit list, the leading-int scan either overflows or consumes
the whole list. -/
theorem leadingIntGo_digits (cs : List Char) :
    ∀ x, cs.all Char.isDigit = true →
      leadingIntGo cs x = none ∨ ∃ v, leadingIntGo cs x = some (v, []) := by
  induction cs with
  | nil => intro x _; exact .inr ⟨x, rfl⟩
  | cons c cs ih =>
    intro x hall
    simp only [List.all_cons, Bool.and_eq_true] at hall
    obtain ⟨hc, hcs⟩ := hall
    simp only [leadingIntGo, hc, if_true]
    split
    · exact .inl rfl
    · split
      · exact .inl rfl
      · exact ih _ hcs

/-- time.ParseDuration rejects every all-digit token other than exactly
"0": after the digits are consumed no unit characters remain, which is the
missing-unit error (or the leading-int scan already overflowed). -/
theorem parseDuration_all_digits (s : String)
    (hdig : s.toList.all Char.isDigit = true) (h0 : s ≠ "0") :
    parseDuration s = none := by
  unfold parseDuration
  cases hcs : s.toList with
  | nil => simp
  | cons c rest =>
    rw [hcs] at hdig
    simp only [List.all_cons, Bool.and_eq_true] at hdig
    obtain ⟨hc, hrest⟩ := hdig
    obtain ⟨hnd, hnp⟩ := isDigit_ne_sign c hc
    simp only [hnd, hnp, if_false, if_neg]
    have hne0 : ¬(c :: rest = ['0']) := by
      intro he
      exact h0 (String.ext (by rw [show s.data = s.toList from rfl, hcs, he]))
    have hneNil : ¬(c :: rest = ([] : List Char)) := by simp
    rw [if_neg hne0, if_neg hneNil]
    have hall : (c :: rest).all Char.isDigit = true := by simp [hc, hrest]
    rcases leadingIntGo_digits (c :: rest) 0 hall with hnone | ⟨v, hv⟩
    · simp only [durLoop]
      simp [hc, hnone]
    · simp only [durLoop]
      simp [hc, hv, takeUnit, List.span, List.span.loop]

/-- C5 amended: for every flag binding of duration type, converting a
unit-less token consisting only of digits is a conversion error — except
for the exact token "0", which time.ParseDuration special-cases to the
zero duration; compound numeric+unit strings such as "1h30m" and "500ms"
convert successfully. -/
theorem duration_unitless_rejected (s : String) (st : Store) (f : FlagM)
    (hdig : s.toList.all Char.isDigit = true) (h0 : s ≠ "0")
    (hf : f.flagType = .duration) :
    setValue st f s = .error "invalid duration value" ∧
    parseDuration s = none ∧
    parseDuration "1h30m" = some 5400000000000 ∧
    parseDuration "500ms" = some 500000000 := by
  have hn := parseDuration_all_digits s hdig h0
  refine ⟨?_, hn, by decide, by decide⟩
  simp only [setValue, hf, hn]

/-- Witness for the C5 amended theorem at the concrete unit-less token
"10" and a concrete duration binding. -/
theorem duration_unitless_rejected_witness :
    ("10".toList.all Char.isDigit = true ∧ ("10" : String) ≠ "0" ∧
      ({ names := ["t"], flagType := .duration, addr := 0 } : FlagM).flagType
        = .duration) ∧
    (setValue (fun _ => GoValue.duration 0)
        { names := ["t"], flagType := .duration, addr := 0 } "10"
        = .error "invalid duration value" ∧
      parseDuration "10" = none ∧
      parseDuration "1h30m" = some 5400000000000 ∧
      parseDuration "500ms" = some 500000000) :=
  ⟨⟨by decide, by decide, by decide⟩,
    duration_unitless_rejected "10" (fun _ => GoValue.duration 0)
      { names := ["t"], flagType := .duration, addr := 0 }
      (by decide) (by decide) (by decide)⟩

/-- Appending a binding to the registry never changes the lookup of a name
the registry already resolves (GetFlag returns the first match in
declaration order). -/
theorem getFlag_append_of_isSome (fs : List FlagM) (f : FlagM) (m : String)
    (h : (getFlag fs m).isSome = true) :
    getFlag (fs ++ [f]) m = getFlag fs m := by
  unfold getFlag at *
  rw [List.find?_append]
  cases hf : fs.find? (fun g => g.hasName m) with
  | none => rw [hf] at h; simp at h
  | some g => simp [Option.or]

/-- Deduplication by primary name drops an appended binding whose primary
name is already declared (or already seen). -/
theorem dedupByPrimary_append_dup (l : List FlagM) (f : FlagM) :
    ∀ seen, f.primaryName ∈ l.map FlagM.primaryName ∨ f.primaryName ∈ seen →
      dedupByPrimary seen (l ++ [f]) = dedupByPrimary seen l := by
  induction l with
  | nil =>
    intro seen h
    simp at h
    simp [dedupByPrimary, h]
  | cons g gs ih =>
    intro seen h
    by_cases hg : g.primaryName ∈ seen
    · simp only [List.cons_append, dedupByPrimary, if_pos hg]
      apply ih
      rcases h with h | h
      · simp only [List.map_cons, List.mem_cons] at h
        rcases h with h | h
        · exact .inr (h ▸ hg)
        · exact .inl h
      · exact .inr h
    · simp only [List.cons_append, dedupByPrimary, if_neg hg]
      simp only [List.append_eq]
      rw [ih]
      rcases h with h | h
      · simp only [List.map_cons, List.mem_cons] at h
        rcases h with h | h
        · exact .inr (by simp [h])
        · exact .inl h
      · exact .inr (by simp [h])

/-- Marking a name set touches the first binding carrying the name, so an
appended duplicate is left alone when the name already resolves. -/
theorem markSet_append_of_isSome (fs : List FlagM) (f : FlagM) (m : String)
    (h : (getFlag fs m).isSome = true) :
    markSet m (fs ++ [f]) = markSet m fs ++ [f] := by
  induction fs with
  | nil => unfold getFlag at h; simp at h
  | cons g gs ih =>
    by_cases hg : g.hasName m
    · simp [markSet, hg]
    · unfold getFlag at h
      rw [List.find?_cons] at h
      simp only [hg] at h
      simp only [List.cons_append, markSet, if_neg hg, List.append_eq]
      rw [ih h]

/-- C3 amended: adding a second flag binding with the same primary name as
an earlier binding on the same node does not replace the earlier binding —
the later binding is appended to the registry but masked: lookup of any
name the registry already resolves, the node's effective flag set, and the
per-token set marking that parsing performs all keep using the earlier
binding (first write wins for configuration-time duplicates). -/
theorem duplicate_primary_first_wins (fs : List FlagM) (f : FlagM)
    (hp : f.primaryName ∈ fs.map FlagM.primaryName) :
    (∀ m, (getFlag fs m).isSome = true → getFlag (fs ++ [f]) m = getFlag fs m) ∧
    getAllFlags [fs ++ [f]] = getAllFlags [fs] ∧
    (∀ m, (getFlag fs m).isSome = true →
      markSet m (fs ++ [f]) = markSet m fs ++ [f]) := by
  refine ⟨fun m h => getFlag_append_of_isSome fs f m h, ?_,
    fun m h => markSet_append_of_isSome fs f m h⟩
  simp only [getAllFlags, List.reverse_cons, List.reverse_nil, List.nil_append,
    List.flatten_cons, List.flatten_nil, List.append_nil]
  exact dedupByPrimary_append_dup fs f [] (.inl hp)

/-- Witness for the C3 amended theorem: two string bindings with primary
name "x" on one node; lookup and the effective flag set ignore the
appended duplicate. -/
theorem duplicate_primary_first_wins_witness :
    (({ names := ["x"], flagType := .str, usage := "second", addr := 1 } : FlagM).primaryName
        ∈ [({ names := ["x"], flagType := .str, usage := "first", addr := 0 } : FlagM)].map
            FlagM.primaryName) ∧
    getAllFlags [[({ names := ["x"], flagType := .str, usage := "first", addr := 0 } : FlagM)]
        ++ [{ names := ["x"], flagType := .str, usage := "second", addr := 1 }]]
      = getAllFlags [[{ names := ["x"], flagType := .str, usage := "first", addr := 0 }]] :=
  ⟨by decide,
    (duplicate_primary_first_wins
      [{ names := ["x"], flagType := .str, usage := "first", addr := 0 }]
      { names := ["x"], flagType := .str, usage := "second", addr := 1 }
      (by decide)).2.1⟩

/-- A successful base-10 signed parse fits the declared width. -/
theorem parseInt_bounds (bits : Nat) (s : String) (v : Int)
    (h : parseInt bits s = some v) :
    -(2 ^ (bits - 1) : Int) ≤ v ∧ v < 2 ^ (bits - 1) := by
  unfold parseInt at h
  rcases hcs : s.toList with _ | ⟨c, rest⟩ <;> rw [hcs] at h
  · simp at h
  · simp only at h
    rcases hd : decDigits? (if c = '-' then (true, rest)
        else if c = '+' then (false, rest) else (false, c :: rest)).2 with _ | un <;>
      rw [hd] at h
    · simp at h
    · simp only at h
      set neg := (if c = '-' then (true, rest)
        else if c = '+' then (false, rest) else (false, c :: rest)).1 with hneg
      have hk : (0 : ℤ) < 2 ^ (bits - 1) := by positivity
      split at h
      · simp at h
      · split at h
        · simp at h
        · rename_i h1 h2
          simp only [Option.some.injEq] at h
          subst h
          cases hb : neg with
          | false =>
            rw [hb] at h1
            simp only [Bool.false_eq_true, not_false_iff, not_true, false_and,
              not_and, true_implies, not_le, not_not] at h1
            have h1n : un < 2 ^ (bits - 1) := h1
            simp only [hb, Bool.false_eq_true, if_false]
            refine ⟨le_trans (by linarith) (Int.ofNat_nonneg un), ?_⟩
            exact_mod_cast h1n
          | true =>
            rw [hb] at h2
            have h2n : un ≤ 2 ^ (bits - 1) := by
              by_contra hcon
              exact h2 ⟨rfl, Nat.lt_of_not_le hcon⟩
            simp only [hb, if_true]
            have hun : (un : ℤ) ≤ 2 ^ (bits - 1) := by exact_mod_cast h2n
            have hnn : (0 : ℤ) ≤ (un : ℤ) := Int.ofNat_nonneg un
            exact ⟨by linarith, by linarith⟩

/-- A successful base-10 unsigned parse fits the declared width. -/
theorem parseUint_bounds (bits : Nat) (s : String) (v : Nat)
    (h : parseUint bits s = some v) : v < 2 ^ bits := by
  unfold parseUint at h
  rcases hd : decDigits? s.toList with _ | un <;> rw [hd] at h
  · simp at h
  · simp only at h
    split at h
    · simp only [Option.some.injEq] at h
      subst h
      assumption
    · simp at h

/-- C7: integer and unsigned conversion enforces the declared bit width —
every successfully parsed signed value lies in the two's-complement range
of the width and every unsigned value below 2^width; an int8 binding
parsed with token "200" fails with a conversion error, and neither the
stored value nor the set marker is modified by that token. -/
theorem int_width_overflow_rejected :
    (∀ bits s v, parseInt bits s = some v →
      -(2 ^ (bits - 1) : Int) ≤ v ∧ v < 2 ^ (bits - 1)) ∧
    (∀ bits s v, parseUint bits s = some v → v < 2 ^ bits) ∧
    parseInt 8 "200" = none ∧
    (parseTokens [{ names := ["n"], flagType := .int 8, addr := 0 }]
      (fun _ => GoValue.int 7) [] ["--n=200"]).2.2
      = .error "invalid value for flag n: invalid integer value" ∧
    (parseTokens [{ names := ["n"], flagType := .int 8, addr := 0 }]
      (fun _ => GoValue.int 7) [] ["--n=200"]).2.1 0 = GoValue.int 7 ∧
    (parseTokens [{ names := ["n"], flagType := .int 8, addr := 0 }]
      (fun _ => GoValue.int 7) [] ["--n=200"]).1.map FlagM.set = [false] := by
  exact ⟨parseInt_bounds, parseUint_bounds, by decide, by decide, by decide, by decide⟩

/-- Witness for C7 at width 8 and token "5" for both the signed and
unsigned range parts. -/
theorem int_width_overflow_rejected_witness :
    (parseInt 8 "5" = some 5 ∧ parseUint 8 "5" = some 5) ∧
    (-(2 ^ (8 - 1) : Int) ≤ 5 ∧ (5 : Int) < 2 ^ (8 - 1)) ∧ (5 : Nat) < 2 ^ 8 :=
  ⟨⟨by decide, by decide⟩,
    int_width_overflow_rejected.1 8 "5" 5 (by decide),
    int_width_overflow_rejected.2.1 8 "5" 5 (by decide)⟩

/-- Names kept by the dedup loop are names not previously seen, and the
kept names are pairwise distinct. -/
theorem dedupByPrimary_nodup (l : List FlagM) :
    ∀ seen, ((dedupByPrimary seen l).map FlagM.primaryName).Nodup ∧
      ∀ x ∈ (dedupByPrimary seen l).map FlagM.primaryName, x ∉ seen := by
  induction l with
  | nil => intro seen; simp [dedupByPrimary]
  | cons f fs ih =>
    intro seen
    by_cases hf : f.primaryName ∈ seen
    · simpa [dedupByPrimary, hf] using ih seen
    · simp only [dedupByPrimary, if_neg hf, List.map_cons, List.nodup_cons]
      obtain ⟨hnd, hmem⟩ := ih (f.primaryName :: seen)
      refine ⟨⟨?_, hnd⟩, ?_⟩
      · intro hcon
        exact (hmem _ hcon) (List.mem_cons_self _ _)
      · intro x hx
        rcases List.mem_cons.mp hx with hx | hx
        · exact hx ▸ hf
        · intro hseen
          exact (hmem _ hx) (List.mem_cons_of_mem _ hseen)

/-- For a name not yet seen, the dedup loop keeps exactly the first binding
carrying it: lookup by primary name agrees before and after dedup. -/
theorem dedupByPrimary_find? (l : List FlagM) :
    ∀ seen n, n ∉ seen →
      (dedupByPrimary seen l).find? (fun f => f.primaryName == n) =
        l.find? (fun f => f.primaryName == n) := by
  induction l with
  | nil => intro seen n _; rfl
  | cons f fs ih =>
    intro seen n hn
    by_cases hf : f.primaryName ∈ seen
    · rw [dedupByPrimary, if_pos hf, List.find?_cons]
      have hne : (f.primaryName == n) = false := by
        simp only [beq_eq_false_iff_ne, ne_eq]
        intro he
        exact hn (he ▸ hf)
      rw [hne]
      exact ih seen n hn
    · rw [dedupByPrimary, if_neg hf, List.find?_cons, List.find?_cons]
      cases he : (f.primaryName == n) with
      | true => rfl
      | false =>
        apply ih
        simp only [List.mem_cons, not_or]
        refine ⟨?_, hn⟩
        intro hc
        rw [hc] at he
        simp at he

/-- The dedup loop keeps a subsequence: relative declaration order is
preserved. -/
theorem dedupByPrimary_sublist (l : List FlagM) :
    ∀ seen, (dedupByPrimary seen l).Sublist l := by
  induction l with
  | nil => intro seen; simp [dedupByPrimary]
  | cons f fs ih =>
    intro seen
    by_cases hf : f.primaryName ∈ seen
    · rw [dedupByPrimary, if_pos hf]
      exact (ih seen).cons f
    · rw [dedupByPrimary, if_neg hf]
      exact (ih _).cons₂ f

/-- C2: the effective flag set walks node-outward-to-root keeping each
binding the first time its primary name is seen — no two kept entries
share a primary name, the kept list is an order-preserving subsequence of
the node→root concatenation, lookup by any primary name yields the first
(nearest-descendant) binding of that name so a descendant masks every
ancestor binding of the same primary name, and every flag of the chain has
a representative of its primary name in the result. -/
theorem effective_flags_nearest_wins (ancestors : List (List FlagM)) :
    ((getAllFlags ancestors).map FlagM.primaryName).Nodup ∧
    (getAllFlags ancestors).Sublist ancestors.reverse.flatten ∧
    (∀ n, (getAllFlags ancestors).find? (fun f => f.primaryName == n) =
      (ancestors.reverse.flatten).find? (fun f => f.primaryName == n)) ∧
    (∀ g ∈ ancestors.reverse.flatten, ∃ gk ∈ getAllFlags ancestors,
      gk.primaryName = g.primaryName) := by
  refine ⟨(dedupByPrimary_nodup _ []).1, dedupByPrimary_sublist _ [],
    fun n => dedupByPrimary_find? _ [] n (by simp), ?_⟩
  intro g hg
  rcases hsome : (ancestors.reverse.flatten).find?
      (fun f => f.primaryName == g.primaryName) with _ | gk
  · have hfind : ((ancestors.reverse.flatten).find?
        (fun f => f.primaryName == g.primaryName)).isSome = true := by
      rw [List.find?_isSome]
      exact ⟨g, hg, by simp⟩
    rw [hsome] at hfind
    simp at hfind
  · have heq := dedupByPrimary_find? (ancestors.reverse.flatten) [] g.primaryName (by simp)
    have hres : (getAllFlags ancestors).find? (fun f => f.primaryName == g.primaryName)
        = some gk := by
      unfold getAllFlags
      rw [heq, hsome]
    refine ⟨gk, List.mem_of_find?_eq_some hres, ?_⟩
    have hp := List.find?_some hres
    exact eq_of_beq hp

/-- Witness for C2 on a two-level chain with a shadowed "verbose" flag:
the parent's "verbose" has a same-named representative (the child's) in
the child's effective flag set. -/
theorem effective_flags_nearest_wins_witness :
    (({ names := ["verbose"], flagType := .boolean, addr := 0 } : FlagM)
        ∈ ([[({ names := ["verbose"], flagType := .boolean, addr := 0 } : FlagM)],
            [{ names := ["verbose", "v"], flagType := .boolean, addr := 1 }]] :
          List (List FlagM)).reverse.flatten) ∧
    (∃ gk ∈ getAllFlags
        [[({ names := ["verbose"], flagType := .boolean, addr := 0 } : FlagM)],
          [{ names := ["verbose", "v"], flagType := .boolean, addr := 1 }]],
      gk.primaryName
        = ({ names := ["verbose"], flagType := .boolean, addr := 0 } : FlagM).primaryName) :=
  ⟨by decide,
    (effective_flags_nearest_wins
        [[{ names := ["verbose"], flagType := .boolean, addr := 0 }],
          [{ names := ["verbose", "v"], flagType := .boolean, addr := 1 }]]).2.2.2
      { names := ["verbose"], flagType := .boolean, addr := 0 } (by decide)⟩

/-- Stripping the second dash leaves a name that does not start with a
dash unchanged. -/
theorem stripSecondDash_no_dash (cs : List Char) (h : cs.head? ≠ some '-') :
    stripSecondDash cs = cs := by
  cases cs with
  | nil => rfl
  | cons c t =>
    have hc : c ≠ '-' := by
      intro he
      exact h (by rw [he]; rfl)
    unfold stripSecondDash
    split
    · rename_i heq
      injection heq with hh _
      exact absurd hh hc
    · rfl

/-- C10: the tokenizer does not distinguish the single-dash prefix from
the double-dash prefix — for any token body not itself starting with a
dash, parsing proceeds identically whether the token is written with one
dash or two, because after the dashes are stripped the remaining name is
looked up against all of the binding's names; in particular -name=x with
the long name and --n=x with the short alias are both accepted, store the
same value into the binding's caller-owned storage and mark it set. -/
theorem tokenizer_dash_agnostic (fs : List FlagM) (st : Store) (acc : List String)
    (rest : String) (tail : List String)
    (h : rest.toList.head? ≠ some '-') :
    (parseTokens fs st acc (("-" ++ rest) :: tail) =
      parseTokens fs st acc (("--" ++ rest) :: tail)) ∧
    (parseTokens [{ names := ["name", "n"], flagType := .str, addr := 0 }]
      (fun _ => GoValue.str "") [] ["-name=x"]).2.1 0 = GoValue.str "x" ∧
    (parseTokens [{ names := ["name", "n"], flagType := .str, addr := 0 }]
      (fun _ => GoValue.str "") [] ["--n=x"]).2.1 0 = GoValue.str "x" ∧
    (parseTokens [{ names := ["name", "n"], flagType := .str, addr := 0 }]
      (fun _ => GoValue.str "") [] ["-name=x"]).2.2 = .ok [] ∧
    (parseTokens [{ names := ["name", "n"], flagType := .str, addr := 0 }]
      (fun _ => GoValue.str "") [] ["--n=x"]).2.2 = .ok [] ∧
    (parseTokens [{ names := ["name", "n"], flagType := .str, addr := 0 }]
      (fun _ => GoValue.str "") [] ["-name=x"]).1.map FlagM.set = [true] ∧
    (parseTokens [{ names := ["name", "n"], flagType := .str, addr := 0 }]
      (fun _ => GoValue.str "") [] ["--n=x"]).1.map FlagM.set = [true] := by
  refine ⟨?_, by decide, by decide, by decide, by decide, by decide, by decide⟩
  have h1 : ("-" ++ rest).toList = '-' :: rest.toList := by
    show ("-" ++ rest).data = '-' :: rest.data
    rw [String.data_append]
    rfl
  have h2 : ("--" ++ rest).toList = '-' :: '-' :: rest.toList := by
    show ("--" ++ rest).data = '-' :: '-' :: rest.data
    rw [String.data_append]
    rfl
  simp only [parseTokens, h1, h2]
  rw [stripSecondDash_no_dash rest.toList h]
  rfl

/-- Witness for C10 at the concrete token body "name=x" against an empty
registry. -/
theorem tokenizer_dash_agnostic_witness :
    ("name=x".toList.head? ≠ some '-') ∧
    parseTokens [] (fun _ => GoValue.str "") [] ["-name=x"] =
      parseTokens [] (fun _ => GoValue.str "") [] ["--name=x"] :=
  ⟨by decide,
    (tokenizer_dash_agnostic [] (fun _ => GoValue.str "") [] "name=x" [] (by decide)).1⟩

/-- C8: with help enabled (the default) and any argument vector containing
a token exactly equal to "--" plus the help flag name (or "-" plus the
short name), execution returns nil without error, writes no flag value to
caller-owned storage, runs no required-flag validation (the result is nil
even when a required flag is unset), and runs no lifecycle hook or handler
(the event trace is empty): the help token pre-empts the entire
router/parse/lifecycle pipeline. -/
theorem help_token_preempts (fuel : Nat) (anc : List CommandM) (c : CommandM)
    (marks : List Nat) (st : Store) (args : List String)
    (henabled : c.helpEnabled = true)
    (htok : ("--" ++ c.helpFlag) ∈ args ∨ ("-" ++ c.helpShort) ∈ args) :
    executeM (fuel + 1) anc c marks st args = (marks, st, [], .ret none) := by
  have hc : (c.helpEnabled ∧ ∃ a ∈ args, a = "--" ++ c.helpFlag ∨ a = "-" ++ c.helpShort) := by
    refine ⟨henabled, ?_⟩
    rcases htok with h | h
    · exact ⟨_, h, Or.inl rfl⟩
    · exact ⟨_, h, Or.inr rfl⟩
  simp only [executeM]
  rw [if_pos hc]

/-- Witness for C8: a root command with a required flag and default help
names, executed on the single token "--help", returns nil with nothing
written and no events. -/
theorem help_token_preempts_witness :
    helpDemoCmd.helpEnabled = true ∧
    (("--" ++ helpDemoCmd.helpFlag) ∈ ["--help"] ∨
      ("-" ++ helpDemoCmd.helpShort) ∈ ["--help"]) ∧
    executeM 1 [] helpDemoCmd [] emptyStore ["--help"]
      = ([], emptyStore, [], .ret none) :=
  ⟨rfl, Or.inl (by decide),
    help_token_preempts 0 [] helpDemoCmd [] emptyStore ["--help"] rfl (Or.inl (by decide))⟩

/-- Every event of the forward PersistentPreRun walk starting at index i
is a ppre event with index at least i. -/
theorem forwardPPre_events (l : List HookSlots) :
    ∀ i ev, ev ∈ (forwardPPre i l).1 → ∃ j, i ≤ j ∧ ev = .ppre j := by
  induction l with
  | nil => intro i ev h; simp [forwardPPre] at h
  | cons c rest ih =>
    intro i ev h
    rcases hc : c.persistentPreRun with _ | (_ | e) <;>
      simp only [forwardPPre, hc] at h
    · obtain ⟨j, hij, he⟩ := ih (i + 1) ev h
      exact ⟨j, le_trans (Nat.le_succ i) hij, he⟩
    · rcases List.mem_cons.mp h with he | he
      · exact ⟨i, le_refl i, he⟩
      · obtain ⟨j, hij, hj⟩ := ih (i + 1) ev he
        exact ⟨j, le_trans (Nat.le_succ i) hij, hj⟩
    · rcases List.mem_singleton.mp h with he
      exact ⟨i, le_refl i, he⟩

/-- The index of the failing PersistentPreRun is at least the walk start
index. -/
theorem forwardPPre_fail_ge (l : List HookSlots) :
    ∀ i k e, (forwardPPre i l).2 = some (k, e) → i ≤ k := by
  induction l with
  | nil => intro i k e h; simp [forwardPPre] at h
  | cons c rest ih =>
    intro i k e h
    rcases hc : c.persistentPreRun with _ | (_ | e') <;>
      simp only [forwardPPre, hc] at h
    · exact le_trans (Nat.le_succ i) (ih (i + 1) k e h)
    · exact le_trans (Nat.le_succ i) (ih (i + 1) k e h)
    · simp only [Option.some.injEq, Prod.mk.injEq] at h
      omega

/-- When the walk fails at index k, every PersistentPreRun that was
invoked has index at most k: no later hook ran. -/
theorem forwardPPre_fail_bound (l : List HookSlots) :
    ∀ i k e, (forwardPPre i l).2 = some (k, e) →
      ∀ j, Event.ppre j ∈ (forwardPPre i l).1 → j ≤ k := by
  induction l with
  | nil => intro i k e h; simp [forwardPPre] at h
  | cons c rest ih =>
    intro i k e h j hj
    rcases hc : c.persistentPreRun with _ | (_ | e') <;>
      simp only [forwardPPre, hc] at h hj
    · exact ih (i + 1) k e h j hj
    · rcases List.mem_cons.mp hj with he | he
      · have hik := forwardPPre_fail_ge rest (i + 1) k e h
        have : j = i := by injection he
        omega
      · exact ih (i + 1) k e h j he
    · simp only [Option.some.injEq, Prod.mk.injEq] at h
      rcases List.mem_singleton.mp hj with he
      have : j = i := by injection he
      omega

/-- Every event of the ascending PersistentPostRun listing from index i is
a ppost event with index at least i. -/
theorem ppostAsc_events (l : List HookSlots) :
    ∀ i ev, ev ∈ ppostAsc i l → ∃ j, i ≤ j ∧ ev = .ppost j := by
  induction l with
  | nil => intro i ev h; simp [ppostAsc] at h
  | cons c rest ih =>
    intro i ev h
    simp only [ppostAsc, List.mem_append] at h
    rcases h with h | h
    · rcases hc : c.persistentPostRun with _ | r <;> rw [hc] at h
      · simp at h
      · rcases List.mem_singleton.mp h with he
        exact ⟨i, le_refl i, he⟩
    · obtain ⟨j, hij, he⟩ := ih (i + 1) ev h
      exact ⟨j, le_trans (Nat.le_succ i) hij, he⟩

/-- Each chain position contributes its ppost event exactly once when it
has a PersistentPostRun hook, otherwise not at all. -/
theorem ppostAsc_count (l : List HookSlots) :
    ∀ i j c, l[j]? = some c →
      (ppostAsc i l).count (Event.ppost (i + j)) =
        if c.persistentPostRun.isSome then 1 else 0 := by
  induction l with
  | nil => intro i j c h; simp at h
  | cons c0 rest ih =>
    intro i j c h
    cases j with
    | zero =>
      simp only [List.getElem?_cons_zero, Option.some.injEq] at h
      subst h
      simp only [ppostAsc, Nat.add_zero, List.count_append]
      have htail : (ppostAsc (i + 1) rest).count (Event.ppost i) = 0 := by
        rw [List.count_eq_zero]
        intro hmem
        obtain ⟨j, hij, he⟩ := ppostAsc_events rest (i + 1) _ hmem
        have : i = j := by injection he
        omega
      rw [htail]
      rcases hc : c0.persistentPostRun with _ | r <;> simp [hc]
    | succ j2 =>
      simp only [List.getElem?_cons_succ] at h
      simp only [ppostAsc, List.count_append]
      have hadd : i + (j2 + 1) = (i + 1) + j2 := by omega
      rw [hadd, ih (i + 1) j2 c h]
      have hhd : (match c0.persistentPostRun with
          | some _ => [Event.ppost i]
          | none => ([] : List Event)).count (Event.ppost ((i + 1) + j2)) = 0 := by
        rcases hc : c0.persistentPostRun with _ | r
        · simp
        · simp only
          rw [List.count_eq_zero]
          simp only [List.mem_singleton]
          intro he
          have h2 : (i + 1) + j2 = i := by injection he
          omega
      rw [hhd]
      simp

/-- The unwind phase emits only post and ppost events. -/
theorem runPostHooksM_events (anc : List HookSlots) (ev : Event)
    (h : ev ∈ runPostHooksM anc) : ev = .post ∨ ∃ j, ev = .ppost j := by
  unfold runPostHooksM at h
  rw [List.mem_append] at h
  rcases h with h | h
  · rcases hl : anc.getLast? with _ | leaf
    · simp [hl] at h
    · rcases hp : leaf.postRun with _ | r
      · simp [hl, hp] at h
      · simp only [hl, hp] at h
        exact .inl (List.mem_singleton.mp h)
  · rw [List.mem_reverse] at h
    obtain ⟨j, _, he⟩ := ppostAsc_events anc 0 ev h
    exact .inr ⟨j, he⟩

/-- The unwind phase runs the leaf PostRun exactly once when present. -/
theorem runPostHooksM_count_post (anc : List HookSlots) (leaf : HookSlots)
    (hleaf : anc.getLast? = some leaf) :
    (runPostHooksM anc).count Event.post = if leaf.postRun.isSome then 1 else 0 := by
  have htail : ((ppostAsc 0 anc).reverse).count Event.post = 0 := by
    rw [List.count_eq_zero]
    intro hmem
    rw [List.mem_reverse] at hmem
    obtain ⟨j, _, he⟩ := ppostAsc_events anc 0 _ hmem
    exact Event.noConfusion he
  unfold runPostHooksM
  rw [List.count_append, htail]
  rcases hp : leaf.postRun with _ | r <;> simp [hleaf, hp]

/-- The unwind phase runs each ancestor PersistentPostRun exactly once
when present. -/
theorem runPostHooksM_count_ppost (anc : List HookSlots) (j : Nat) (c : HookSlots)
    (hj : anc[j]? = some c) :
    (runPostHooksM anc).count (Event.ppost j) =
      if c.persistentPostRun.isSome then 1 else 0 := by
  unfold runPostHooksM
  rw [List.count_append, List.count_reverse]
  have hhd : (match anc.getLast? with
      | some leaf =>
        match leaf.postRun with
        | some _ => [Event.post]
        | none => ([] : List Event)
      | none => ([] : List Event)).count (Event.ppost j) = 0 := by
    rcases hl : anc.getLast? with _ | leaf
    · simp
    · rcases hp : leaf.postRun with _ | r
      · simp [hp]
      · simp only [hp]
        rw [List.count_eq_zero]
        simp only [List.mem_singleton]
        intro he
        exact Event.noConfusion he
  rw [hhd]
  have := ppostAsc_count anc 0 j c hj
  rw [Nat.zero_add] at this
  rw [this]
  simp



/-- The lifecycle trace is a forward part (ppre/pre/handler events only)
followed by the full unwind phase, and the returned value is the first
forward-phase error, else the action result. -/
theorem executeActionM_shape (anc : List HookSlots) :
    ∃ X, (executeActionM anc).1 = X ++ runPostHooksM anc ∧
      (∀ ev ∈ X, (∃ j, ev = .ppre j) ∨ ev = .pre ∨ ev = .handler) ∧
      (executeActionM anc).2 = firstForwardError anc := by
  have hfwd : ∀ ev ∈ (forwardPPre 0 anc).1,
      (∃ j, ev = Event.ppre j) ∨ ev = .pre ∨ ev = .handler := by
    intro ev h
    obtain ⟨j, _, he⟩ := forwardPPre_events anc 0 ev h
    exact .inl ⟨j, he⟩
  rcases hf : (forwardPPre 0 anc).2 with _ | ke
  · rcases hl : anc.getLast? with _ | leaf
    · simp only [executeActionM, firstForwardError, hf, hl]
      exact ⟨(forwardPPre 0 anc).1, rfl, hfwd, trivial⟩
    · rcases hpre : leaf.preRun with _ | (_ | e)
      · rcases hact : leaf.action with _ | r
        · simp only [executeActionM, firstForwardError, hf, hl, hpre, hact]
          exact ⟨(forwardPPre 0 anc).1, rfl, hfwd, trivial⟩
        · simp only [executeActionM, firstForwardError, hf, hl, hpre, hact]
          refine ⟨(forwardPPre 0 anc).1 ++ [Event.handler], rfl, ?_, trivial⟩
          intro ev h
          rcases List.mem_append.mp h with h | h
          · exact hfwd ev h
          · exact .inr (.inr (List.mem_singleton.mp h))
      · rcases hact : leaf.action with _ | r
        · simp only [executeActionM, firstForwardError, hf, hl, hpre, hact]
          refine ⟨(forwardPPre 0 anc).1 ++ [Event.pre], rfl, ?_, trivial⟩
          intro ev h
          rcases List.mem_append.mp h with h | h
          · exact hfwd ev h
          · exact .inr (.inl (List.mem_singleton.mp h))
        · simp only [executeActionM, firstForwardError, hf, hl, hpre, hact]
          refine ⟨(forwardPPre 0 anc).1 ++ [Event.pre, Event.handler], rfl, ?_, trivial⟩
          intro ev h
          rcases List.mem_append.mp h with h | h
          · exact hfwd ev h
          · rcases List.mem_cons.mp h with h | h
            · exact .inr (.inl h)
            · exact .inr (.inr (List.mem_singleton.mp h))
      · simp only [executeActionM, firstForwardError, hf, hl, hpre]
        refine ⟨(forwardPPre 0 anc).1 ++ [Event.pre], rfl, ?_, trivial⟩
        intro ev h
        rcases List.mem_append.mp h with h | h
        · exact hfwd ev h
        · exact .inr (.inl (List.mem_singleton.mp h))
  · simp only [executeActionM, firstForwardError, hf]
    exact ⟨(forwardPPre 0 anc).1, rfl, hfwd, trivial⟩



/-- C1: for every command chain and every outcome of the forward phase —
when a PersistentPreRun (walked root-to-leaf) fails at index k, no
PersistentPreRun past k, no PreRun and no Handler runs, yet the leaf
PostRun and every level of PersistentPostRun still run exactly once
before the error is returned, and the returned value is exactly that
error; in general the value returned to the caller is the first error of
the forward phase (PersistentPreRun, then PreRun, then the action call),
or the action call own result when the forward phase fully succeeded. -/
theorem persistent_hooks_always_unwind (anc : List HookSlots) (leaf : HookSlots)
    (hleaf : anc.getLast? = some leaf) :
    (∀ k e, (forwardPPre 0 anc).2 = some (k, e) →
      (∀ j, Event.ppre j ∈ (executeActionM anc).1 → j ≤ k) ∧
      Event.pre ∉ (executeActionM anc).1 ∧
      Event.handler ∉ (executeActionM anc).1 ∧
      (executeActionM anc).2 = some e) ∧
    ((executeActionM anc).1.count Event.post = if leaf.postRun.isSome then 1 else 0) ∧
    (∀ j c, anc[j]? = some c →
      (executeActionM anc).1.count (Event.ppost j) =
        if c.persistentPostRun.isSome then 1 else 0) ∧
    (executeActionM anc).2 = firstForwardError anc := by
  obtain ⟨X, hX, hXmem, hres⟩ := executeActionM_shape anc
  refine ⟨?_, ?_, ?_, hres⟩
  · intro k e hf
    have htrace : (executeActionM anc).1 = (forwardPPre 0 anc).1 ++ runPostHooksM anc := by
      simp only [executeActionM, hf]
    have hres2 : (executeActionM anc).2 = some e := by
      simp only [executeActionM, hf]
    refine ⟨?_, ?_, ?_, hres2⟩
    · intro j hj
      rw [htrace, List.mem_append] at hj
      rcases hj with hj | hj
      · exact forwardPPre_fail_bound anc 0 k e hf j hj
      · rcases runPostHooksM_events anc _ hj with he | ⟨j2, he⟩ <;> exact Event.noConfusion he
    · rw [htrace, List.mem_append]
      rintro (hm | hm)
      · obtain ⟨j2, _, he⟩ := forwardPPre_events anc 0 _ hm
        exact Event.noConfusion he
      · rcases runPostHooksM_events anc _ hm with he | ⟨j2, he⟩ <;> exact Event.noConfusion he
    · rw [htrace, List.mem_append]
      rintro (hm | hm)
      · obtain ⟨j2, _, he⟩ := forwardPPre_events anc 0 _ hm
        exact Event.noConfusion he
      · rcases runPostHooksM_events anc _ hm with he | ⟨j2, he⟩ <;> exact Event.noConfusion he
  · rw [hX, List.count_append]
    have hx0 : X.count Event.post = 0 := by
      rw [List.count_eq_zero]
      intro hm
      rcases hXmem _ hm with ⟨j, he⟩ | he | he <;> exact Event.noConfusion he
    rw [hx0, runPostHooksM_count_post anc leaf hleaf]
    simp
  · intro j c hj
    rw [hX, List.count_append]
    have hx0 : X.count (Event.ppost j) = 0 := by
      rw [List.count_eq_zero]
      intro hm
      rcases hXmem _ hm with ⟨j2, he⟩ | he | he <;> exact Event.noConfusion he
    rw [hx0, runPostHooksM_count_ppost anc j c hj]
    simp



/-- Witness for C1 on a two-level chain whose root PersistentPreRun fails
with error 7. -/
theorem persistent_hooks_always_unwind_witness :
    ([({ persistentPreRun := some (some 7), persistentPostRun := some (none : Option Nat) } : HookSlots),
      ({ preRun := some (none : Option Nat), action := some (some 3),
         postRun := some (none : Option Nat), persistentPostRun := some (none : Option Nat) } : HookSlots)].getLast?
      = some { preRun := some (none : Option Nat), action := some (some 3),
               postRun := some (none : Option Nat), persistentPostRun := some (none : Option Nat) }) ∧
    (executeActionM
        [({ persistentPreRun := some (some 7), persistentPostRun := some (none : Option Nat) } : HookSlots),
         { preRun := some (none : Option Nat), action := some (some 3),
           postRun := some (none : Option Nat), persistentPostRun := some (none : Option Nat) }]).2
      = firstForwardError
        [({ persistentPreRun := some (some 7), persistentPostRun := some (none : Option Nat) } : HookSlots),
         { preRun := some (none : Option Nat), action := some (some 3),
           postRun := some (none : Option Nat), persistentPostRun := some (none : Option Nat) }] :=
  ⟨by decide,
    (persistent_hooks_always_unwind
      [{ persistentPreRun := some (some 7), persistentPostRun := some (none : Option Nat) },
       { preRun := some (none : Option Nat), action := some (some 3),
         postRun := some (none : Option Nat), persistentPostRun := some (none : Option Nat) }]
      { preRun := some (none : Option Nat), action := some (some 3),
        postRun := some (none : Option Nat), persistentPostRun := some (none : Option Nat) }
      (by decide)).2.2.2⟩

end NyxCli
